import Mathlib

/-!
Verification development for the duojp exercise-builder and answer-grader core.

The TypeScript sources are shallowly embedded: strings are Lean `String`
(lists of Unicode scalar values), JavaScript arrays are Lean lists,
`Math.random()` draws are supplied by explicit draw functions `Nat → Nat`
(the draw for loop counter `i` is reduced modulo the bound the code
multiplies by, so every outcome the code can produce corresponds to some
draw function, and conversely), and the `async`/`fetch` plumbing is
replaced by explicit data parameters (the corpus becomes a function from
chunk index to the list of sentences of that chunk).
-/

namespace Duojp

/-- The four supported target languages, from the `Language` union type. -/
inductive Language where
  | ja
  | zh
  | ko
  | tr
deriving DecidableEq, Repr

/-- A translation of one sentence into one target language
(`TranslationData`). -/
structure TranslationData where
  text : String
  tokens : List String
deriving DecidableEq, Repr

/-- One tile of an exercise (`TileData` of the unified exercise route). -/
structure TileData where
  id : Nat
  text : String
deriving DecidableEq, Repr

/-- A per-language exercise as produced by `buildExerciseForLanguage`. -/
structure LanguageExercise where
  text : String
  tokens : List String
  tiles : List TileData
  num_correct_tiles : Nat
deriving DecidableEq, Repr

/-- Result of grading one submitted answer (`GradeResult`). -/
structure GradeResult where
  correct : Bool
  expected : String
  submitted : String
deriving DecidableEq, Repr

/-- Corpus metadata (`UnifiedManifest`). -/
structure UnifiedManifest where
  total : Nat
  chunks : Nat
  chunk_size : Nat
  languages : List Language

/-- A corpus sentence with its translations (`UnifiedSentence`); the
optional translation fields `ja`/`zh`/`ko`/`tr` are embedded as one
function from `Language` to `Option TranslationData`. -/
structure UnifiedSentence where
  id : Nat
  en : String
  translations : Language → Option TranslationData

/-- The character class matched by the JavaScript regular-expression
escape `\s` (also the character set removed by `String.prototype.trim`):
ASCII whitespace, NBSP, Ogham space mark, the U+2000–U+200A spaces, line
and paragraph separators, narrow NBSP, medium mathematical space,
ideographic space, and the BOM. -/
def isJsWhitespace (c : Char) : Bool :=
  let n := c.toNat
  n == 9 || n == 10 || n == 11 || n == 12 || n == 13 || n == 32 ||
  n == 0xa0 || n == 0x1680 || (0x2000 ≤ n && n ≤ 0x200a) ||
  n == 0x2028 || n == 0x2029 || n == 0x202f || n == 0x205f ||
  n == 0x3000 || n == 0xfeff

/-- Embedding of `String.prototype.trim`: remove leading and trailing
JavaScript whitespace. -/
def jsTrim (s : String) : String :=
  ⟨((s.data.dropWhile isJsWhitespace).reverse.dropWhile isJsWhitespace).reverse⟩

/-- The characters of the regular-expression character class in the
client grader's `normalize` (file of `gradeUnifiedAnswer`).  In that
source file the four characters written between `《》` and `〈〉` are the
plain ASCII quotes `"` and `'` (not the curly variants), so the class,
with duplicates collapsed, is exactly the set below. -/
def graderPunctChars : List Char :=
  ['。', '，', '、', '；', '：', '？', '！', '…', '—', '·',
   '「', '」', '『', '』', '（', '）', '【', '】', '《', '》',
   '"', Char.ofNat 39, '〈', '〉',
   '.', ',', ';', ':', '?', '!', '(', ')', '[', ']']

/-- The client grader's `normalize`: remove every `\s` character (the
`\s+` global replace), then remove every character of the punctuation
class, then `trim()`. -/
def normalize (s : String) : String :=
  jsTrim ⟨(s.data.filter (fun c => !isJsWhitespace c)).filter
    (fun c => !graderPunctChars.contains c)⟩

/-- The client grader `gradeUnifiedAnswer`: for `ko` and `tr` compare the
normalized token sequences position by position after checking the
lengths match; for the other languages join the submitted tokens,
normalize the joined string and the expected text, and compare. -/
def gradeUnifiedAnswer (langExercise : LanguageExercise)
    (userTokens : List String) (language : Language) : GradeResult :=
  if language == Language.ko || language == Language.tr then
    let userTokensNormalized := userTokens.map normalize
    let expectedTokensNormalized := langExercise.tokens.map normalize
    let isCorrect :=
      (userTokensNormalized.length == expectedTokensNormalized.length) &&
      (userTokensNormalized.enum.all (fun p =>
        match expectedTokensNormalized.get? p.1 with
        | some x => p.2 == x
        | none => false))
    { correct := isCorrect
      expected := langExercise.text
      submitted :=
        if language == Language.tr then String.intercalate " " userTokens
        else String.join userTokens }
  else
    let userAnswer := String.join userTokens
    { correct := normalize userAnswer == normalize langExercise.text
      expected := langExercise.text
      submitted := userAnswer }

/-- The builder's `PUNCTUATION_CHARS` set (the unified exercise route).
Here the curly quotes are written with `\u` escapes in the source, so the
set really does contain U+201C/U+201D/U+2018/U+2019. -/
def PUNCTUATION_CHARS : List Char :=
  ['。', '，', '、', '；', '：', '？', '！', '…', '—', '·',
   '「', '」', '『', '』', '（', '）', '【', '】', '《', '》', '〈', '〉',
   '“', '”', '‘', '’',
   '.', ',', ';', ':', '?', '!', '(', ')', '[', ']',
   '"', Char.ofNat 39, '-', '–', '—', ' ', '\t', '\n',
   '～', '〜', '．', '＇', '＂']

/-- The character class of the builder's two quote-mark regular
expressions `/^["“”'‘’]/` and `/["“”'‘’]$/`. -/
def quoteChars : List Char :=
  ['"', '“', '”', Char.ofNat 39, '‘', '’']

/-- Embedding of `isValidToken`: reject the token when it is empty or
trims to nothing, when every character is in `PUNCTUATION_CHARS`, or when
it starts or ends with a straight or curly quote. -/
def isValidToken (token : String) : Bool :=
  if token.data.isEmpty || (jsTrim token).data.isEmpty then false
  else if token.data.all (fun c => PUNCTUATION_CHARS.contains c) then false
  else if (match token.data.head? with
           | some c => quoteChars.contains c
           | none => false) ||
          (match token.data.getLast? with
           | some c => quoteChars.contains c
           | none => false) then false
  else true

/-- One backward Fisher–Yates swap step: exchange the entries at
positions `i` and `j` (the source swaps two array cells; out-of-range
indices leave the list unchanged, which the source never hits). -/
def listSwap (l : List α) (i j : Nat) : List α :=
  match l.get? i, l.get? j with
  | some a, some b => (l.set i b).set j a
  | _, _ => l

/-- The countdown loop of `shuffle`: for `i` from the given counter down
to `1`, swap position `i` with position `rand i % (i + 1)`, the embedding
of `Math.floor(Math.random() * (i + 1))`. -/
def shuffleAux (rand : Nat → Nat) : List α → Nat → List α
  | l, 0 => l
  | l, i + 1 => shuffleAux rand (listSwap l (i + 1) (rand (i + 1) % (i + 2))) i

/-- The builder's `shuffle`: copy the array and run the backward
Fisher–Yates loop from index `length - 1` down to `1`. -/
def shuffle (rand : Nat → Nat) (l : List α) : List α :=
  shuffleAux rand l (l.length - 1)

/-- The filtered correct-token list of `buildExerciseForLanguage`
(`translation.tokens.filter(isValidToken)`). -/
def correctTokens (translation : TranslationData) : List String :=
  translation.tokens.filter isValidToken

/-- The requested distractor count of `buildExerciseForLanguage`:
`Math.min(Math.max(3, Math.floor(correctTokens.length * 0.5)), 8)`. -/
def numDistractors (correctCount : Nat) : Nat :=
  min (max 3 (correctCount / 2)) 8

/-- The eligible distractors of `buildExerciseForLanguage`: pool tokens
that are not among the correct tokens and pass the validity filter. -/
def availableDistractors (translation : TranslationData)
    (distractors : List String) : List String :=
  distractors.filter (fun d =>
    !((correctTokens translation).contains d) && isValidToken d)

/-- The selected distractors of `buildExerciseForLanguage`: shuffle the
eligible pool and keep the first `numDistractors` (`slice(0, n)`). -/
def selectedDistractors (translation : TranslationData)
    (distractors : List String) (rand : Nat → Nat) : List String :=
  (shuffle rand (availableDistractors translation distractors)).take
    (numDistractors (correctTokens translation).length)

/-- Embedding of `buildExerciseForLanguage`; `rand1` supplies the draws
of the distractor-pool shuffle and `rand2` those of the final tile
shuffle. -/
def buildExerciseForLanguage (translation : TranslationData)
    (distractors : List String) (rand1 rand2 : Nat → Nat) : LanguageExercise :=
  let correct := correctTokens translation
  let selected := selectedDistractors translation distractors rand1
  let allTokens := correct ++ selected
  let shuffledTokens := shuffle rand2 allTokens
  { text := translation.text
    tokens := correct
    tiles := shuffledTokens.enum.map (fun p => { id := p.1, text := p.2 })
    num_correct_tiles := correct.length }

/-- Tail scanner for `MULTI_DIALOGUE_PATTERN`: after a quote and at least
one whitespace character, accept on a closing quote or consume further
whitespace. -/
def mdWs : List Char → Bool
  | [] => false
  | c :: rest => if c = '"' then true else isJsWhitespace c && mdWs rest

/-- Scanner state just after a `"`: the pattern requires at least one
whitespace character before the closing quote. -/
def mdAfterQuote : List Char → Bool
  | [] => false
  | c :: rest => isJsWhitespace c && mdWs rest

/-- Unanchored search for the pattern `/"\s+"/`: at each position, either
a match starts at this character or the search continues one character
later. -/
def mdScan : List Char → Bool
  | [] => false
  | c :: rest => if c = '"' then mdAfterQuote rest || mdScan rest else mdScan rest

/-- Embedding of `MULTI_DIALOGUE_PATTERN.test`, the regular expression
`/"\s+"/` applied to a string. -/
def multiDialogueTest (s : String) : Bool :=
  mdScan s.data

/-- Embedding of `isSuitableSentence`: reject exactly the sentences whose
English source matches the multi-dialogue pattern. -/
def isSuitableSentence (sentence : UnifiedSentence) : Bool :=
  if multiDialogueTest sentence.en then false else true

/-- The chunk index computed by the GET handler
(`Math.floor(sentenceIndex / manifest.chunk_size)`). -/
def chunkIndexOf (sentenceIndex chunkSize : Nat) : Nat :=
  sentenceIndex / chunkSize

/-- The in-chunk index computed by the GET handler
(`sentenceIndex % manifest.chunk_size`). -/
def indexInChunkOf (sentenceIndex chunkSize : Nat) : Nat :=
  sentenceIndex % chunkSize

/-- The GET handler's retry bound `MAX_ATTEMPTS`. -/
def MAX_ATTEMPTS : Nat := 10

/-- The sentence-selection loop of the GET handler: on each attempt draw
a random index, locate the sentence through its chunk, and stop on the
first candidate that exists and is suitable; `fuel` counts the remaining
attempts and `attempt` the current loop counter. -/
def selectSentenceAux (total chunkSize : Nat)
    (chunks : Nat → List UnifiedSentence) (pick : Nat → Nat) :
    Nat → Nat → Option UnifiedSentence
  | _, 0 => none
  | attempt, fuel + 1 =>
    let sentenceIndex := pick attempt % total
    let chunk := chunks (chunkIndexOf sentenceIndex chunkSize)
    match chunk.get? (indexInChunkOf sentenceIndex chunkSize) with
    | some candidate =>
      if isSuitableSentence candidate then some candidate
      else selectSentenceAux total chunkSize chunks pick (attempt + 1) fuel
    | none => selectSentenceAux total chunkSize chunks pick (attempt + 1) fuel

/-- The whole selection loop: at most `MAX_ATTEMPTS` attempts starting
from attempt `0`. -/
def selectSentence (total chunkSize : Nat)
    (chunks : Nat → List UnifiedSentence) (pick : Nat → Nat) :
    Option UnifiedSentence :=
  selectSentenceAux total chunkSize chunks pick 0 MAX_ATTEMPTS

/-- One iteration of the per-language loop of the GET handler: build an
exercise for the language when its translation exists and its (raw)
token list is non-empty, and skip the language otherwise. -/
def langEntry (sentence : UnifiedSentence)
    (allDistractors : Language → List String)
    (rng : Language → (Nat → Nat) × (Nat → Nat)) (lang : Language) :
    Option (Language × LanguageExercise) :=
  match sentence.translations lang with
  | some translation =>
    if translation.tokens.length > 0 then
      some (lang, buildExerciseForLanguage translation (allDistractors lang)
        (rng lang).1 (rng lang).2)
    else none
  | none => none

/-- The per-language loop of the GET handler over the four languages in
order. -/
def buildAllExercises (sentence : UnifiedSentence)
    (allDistractors : Language → List String)
    (rng : Language → (Nat → Nat) × (Nat → Nat)) :
    List (Language × LanguageExercise) :=
  [Language.ja, Language.zh, Language.ko, Language.tr].filterMap
    (langEntry sentence allDistractors rng)

/-- Outcome of the unified-exercise GET handler. -/
inductive GetResult where
  | err (msg : String) (status : Nat)
  | ok (exercise_id : Nat) (english : String)
      (exercises : List (Language × LanguageExercise))

/-- Embedding of the GET handler's success path: select a sentence (or
fail with the 404 "no suitable sentence" response) and build the
per-language exercises from it. -/
def getUnifiedExercise (manifest : UnifiedManifest)
    (chunks : Nat → List UnifiedSentence)
    (allDistractors : Language → List String) (pick : Nat → Nat)
    (rng : Language → (Nat → Nat) × (Nat → Nat)) : GetResult :=
  match selectSentence manifest.total manifest.chunk_size chunks pick with
  | none => GetResult.err "Could not find suitable sentence" 404
  | some sentence =>
    GetResult.ok sentence.id sentence.en
      (buildAllExercises sentence allDistractors rng)

/-- The punctuation set of the legacy grading endpoint's
`normalizeForGrading` (frontend grade route). -/
def serverPunctChars : List Char :=
  ['。', '、', '．', '，', '.', ',', '！', '？', '!', '?', '…', '・',
   '「', '」', '『', '』', '（', '）', '(', ')', '【', '】', '〈', '〉', '《', '》',
   '；', '：', '“', '”', '‘', '’', '—', '～']

/-- Modelled from the spec: the platform's Unicode NFKC normalization
called by `normalizeForGrading` via `String.prototype.normalize("NFKC")`
is not part of this repository; the spec describes it as folding
"full-width/half-width and compatibility variants to a canonical form".
It is modelled here on the code points this development uses: the
full-width ASCII block U+FF01–U+FF5E folds to ASCII U+0021–U+007E and the
ideographic space U+3000 to a plain space; all other characters are kept
as they are. -/
def nfkcChar (c : Char) : Char :=
  if 0xff01 ≤ c.toNat && c.toNat ≤ 0xff5e then Char.ofNat (c.toNat - 0xff01 + 0x21)
  else if c.toNat == 0x3000 then ' '
  else c

/-- Character-wise application of the modelled NFKC fold. -/
def nfkcString (s : String) : String :=
  ⟨s.data.map nfkcChar⟩

/-- The legacy grading endpoint's `normalizeForGrading`: NFKC normalize,
remove every `\s` character, then remove every character of the server
punctuation set. -/
def normalizeForGrading (text : String) : String :=
  ⟨((nfkcString text).data.filter (fun c => !isJsWhitespace c)).filter
    (fun c => !serverPunctChars.contains c)⟩

/-! ### Permutation facts about the Fisher–Yates shuffle -/

/-- Setting an index to the value it already holds leaves the list
unchanged. -/
theorem set_get_self : ∀ (l : List α) (i : Nat) (a : α),
    l.get? i = some a → l.set i a = l := by
  intro l
  induction l with
  | nil => intro i a h; cases h
  | cons x t ih =>
    intro i a h
    cases i with
    | zero =>
      simp only [List.get?] at h
      cases h
      rfl
    | succ n =>
      simp only [List.get?] at h
      simp [List.set, ih n a h]

/-- Pulling the element stored at position `k` to the front while pushing
`a` into its place is a permutation of pushing `a` to the front. -/
theorem cons_set_perm : ∀ (t : List α) (k : Nat) (a b : α),
    t.get? k = some b → (b :: t.set k a).Perm (a :: t) := by
  intro t
  induction t with
  | nil => intro k a b h; cases h
  | cons x t' ih =>
    intro k a b h
    cases k with
    | zero =>
      simp only [List.get?] at h
      cases h
      exact List.Perm.swap a x t'
    | succ m =>
      simp only [List.get?] at h
      have step := ih m a b h
      show (b :: x :: t'.set m a).Perm (a :: x :: t')
      exact (List.Perm.swap x b _).trans
        ((List.Perm.cons x step).trans (List.Perm.swap a x t'))

/-- A double `set` exchanging the values at a smaller and a larger index
permutes the list. -/
theorem set_set_perm_lt : ∀ (i : Nat) (l : List α) (j : Nat) (a b : α),
    i < j → l.get? i = some a → l.get? j = some b →
    ((l.set i b).set j a).Perm l := by
  intro i
  induction i with
  | zero =>
    intro l j a b hij hi hj
    cases l with
    | nil => cases hi
    | cons x t =>
      simp only [List.get?] at hi
      cases hi
      cases j with
      | zero => omega
      | succ k =>
        simp only [List.get?] at hj
        exact cons_set_perm t k a b hj
  | succ m ih =>
    intro l j a b hij hi hj
    cases l with
    | nil => cases hi
    | cons x t =>
      cases j with
      | zero => omega
      | succ k =>
        simp only [List.get?] at hi hj
        have := ih t k a b (by omega) hi hj
        simpa [List.set] using List.Perm.cons x this

/-- The single swap step of the shuffle is a permutation. -/
theorem listSwap_perm (l : List α) (i j : Nat) : (listSwap l i j).Perm l := by
  unfold listSwap
  cases hi : l.get? i with
  | none => cases l.get? j <;> exact List.Perm.refl l
  | some a =>
    cases hj : l.get? j with
    | none => exact List.Perm.refl l
    | some b =>
      rcases Nat.lt_trichotomy i j with h | h | h
      · exact set_set_perm_lt i l j a b h hi hj
      · subst h
        rw [hi] at hj
        cases hj
        show ((l.set i a).set i a).Perm l
        rw [List.set_set, set_get_self l i a hi]
      · show ((l.set i b).set j a).Perm l
        rw [List.set_comm _ _ _ (Nat.ne_of_gt h)]
        exact set_set_perm_lt j l i b a h hj hi

/-- Every state of the backward Fisher–Yates loop is a permutation of its
input. -/
theorem shuffleAux_perm (rand : Nat → Nat) :
    ∀ (i : Nat) (l : List α), (shuffleAux rand l i).Perm l := by
  intro i
  induction i with
  | zero => intro l; exact List.Perm.refl l
  | succ m ih =>
    intro l
    exact (ih _).trans (listSwap_perm l (m + 1) (rand (m + 1) % (m + 2)))

/-- The shuffle returns a permutation of its input, whatever the random
draws are. -/
theorem shuffle_perm (rand : Nat → Nat) (l : List α) : (shuffle rand l).Perm l :=
  shuffleAux_perm rand (l.length - 1) l

/-- Shuffling neither adds nor removes elements. -/
theorem mem_shuffle {rand : Nat → Nat} {l : List α} {x : α} :
    x ∈ shuffle rand l ↔ x ∈ l :=
  (shuffle_perm rand l).mem_iff

/-- Shuffling preserves the length. -/
theorem shuffle_length (rand : Nat → Nat) (l : List α) :
    (shuffle rand l).length = l.length :=
  (shuffle_perm rand l).length_eq

/-- Claim C10: the shuffle function returns a permutation of its input
(the input list itself is a pure value and is not mutated in this
embedding), for every list and every sequence of random draws; and
consequently the tile texts of every built exercise are exactly the
filtered correct tokens followed by the selected distractors, rearranged
by a permutation. -/
theorem shuffle_is_permutation :
    (∀ (α : Type) (rand : Nat → Nat) (l : List α), (shuffle rand l).Perm l) ∧
    (∀ (translation : TranslationData) (distractors : List String)
        (rand1 rand2 : Nat → Nat),
      (((buildExerciseForLanguage translation distractors rand1 rand2).tiles.map
          TileData.text).Perm
        (correctTokens translation ++
          selectedDistractors translation distractors rand1))) := by
  constructor
  · intro α rand l
    exact shuffle_perm rand l
  · intro translation distractors rand1 rand2
    have hcomp : (TileData.text ∘ fun p : Nat × String =>
        ({ id := p.1, text := p.2 } : TileData)) = Prod.snd := by
      funext p; rfl
    have htxt :
        ((buildExerciseForLanguage translation distractors rand1 rand2).tiles.map
          TileData.text) =
        shuffle rand2 (correctTokens translation ++
          selectedDistractors translation distractors rand1) := by
      simp [buildExerciseForLanguage, List.map_map, hcomp, List.enum_map_snd]
    rw [htxt]
    exact shuffle_perm rand2 _

/-! ### Characterizing the grader's normalization -/

/-- Dropping a prefix by a predicate no character of the list satisfies
is the identity. -/
theorem dropWhile_eq_self_of_none (p : Char → Bool) (cs : List Char)
    (h : ∀ c ∈ cs, p c = false) : cs.dropWhile p = cs := by
  cases cs with
  | nil => rfl
  | cons a t => simp [List.dropWhile_cons, h a (by simp)]

/-- `trim` is the identity on a string with no JavaScript whitespace. -/
theorem jsTrim_eq_self (cs : List Char)
    (h : ∀ c ∈ cs, isJsWhitespace c = false) : jsTrim ⟨cs⟩ = ⟨cs⟩ := by
  unfold jsTrim
  rw [dropWhile_eq_self_of_none _ _ h]
  rw [dropWhile_eq_self_of_none _ _ (by intro c hc; exact h c (by simpa using hc))]
  simp

/-- The two global regular-expression replaces of `normalize` amount to a
single pass keeping exactly the characters that are neither JavaScript
whitespace nor in the grader's punctuation class; the final `trim()` is a
no-op because no whitespace survives the first replace. -/
theorem filter_then_filter (p q : Char → Bool) : ∀ cs : List Char,
    (cs.filter p).filter q = cs.filter (fun c => p c && q c) := by
  intro cs
  induction cs with
  | nil => rfl
  | cons a t ih =>
    by_cases hp : p a = true <;> by_cases hq : q a = true <;>
      simp [List.filter_cons, hp, hq, ih]

theorem normalize_eq_filter (s : String) :
    normalize s =
      ⟨s.data.filter (fun c =>
        !isJsWhitespace c && !graderPunctChars.contains c)⟩ := by
  unfold normalize
  rw [filter_then_filter]
  apply jsTrim_eq_self
  intro c hc
  have := List.of_mem_filter hc
  exact Bool.eq_false_iff.mpr (fun hw => by simp [hw] at this)

/-- Claim C2 counterexample: the grader's `normalize` performs no NFKC
folding.  The full-width digit one (U+FF11) is a compatibility variant of
the ASCII digit one, so under the claimed NFKC-first normalization the
two strings would normalize identically; `normalize` keeps them
distinct.  (The legacy server endpoint's `normalizeForGrading` does fold
them, witnessing what the claimed behaviour would look like.) -/
theorem normalize_no_nfkc_counterexample :
    normalize "１" = "１" ∧ normalize "1" = "1" ∧
    normalize "１" ≠ normalize "1" ∧ normalizeForGrading "１" = "1" := by
  refine ⟨rfl, rfl, ?_, rfl⟩
  decide

/-- Claim C2 amended: the unified grader's `normalize` applies no Unicode
NFKC normalization; it removes all JavaScript whitespace and then every
character of its fixed punctuation class (equivalently, a single filter
pass), and two strings are graded as equivalent iff these normalized
forms are identical.  Only the legacy server grading endpoint's
`normalizeForGrading` applies NFKC before stripping whitespace and its
punctuation set. -/
theorem normalize_characterization :
    (∀ s : String, normalize s =
      ⟨s.data.filter (fun c =>
        !isJsWhitespace c && !graderPunctChars.contains c)⟩) ∧
    normalize "１" = "１" ∧
    (∀ s : String, normalizeForGrading s =
      ⟨((nfkcString s).data.filter (fun c => !isJsWhitespace c)).filter
        (fun c => !serverPunctChars.contains c)⟩) ∧
    normalizeForGrading "１" = "1" := by
  exact ⟨normalize_eq_filter, rfl, fun s => rfl, rfl⟩

/-! ### The distractor-count policy -/

/-- Follows the spec's words only (to be compared with the source's
`numDistractors`): `clamp(round(0.5 * n), min = 3, max = 8)`, with
`round` the JavaScript `Math.round` (round half up), so
`round(0.5 * n) = (n + 1) / 2` in integer arithmetic. -/
def specRoundedDistractors (n : Nat) : Nat :=
  min (max ((n + 1) / 2) 3) 8

/-- Claim C3 counterexample: at a filtered correct-token count of `7` the
builder requests `max(3, floor(3.5)) = 3` distractors, while the claimed
`clamp(round(0.5 * 7), 3, 8)` equals `4`; the two formulas of the claim
disagree at every odd count from seven on, and the code computes the
floor-based one. -/
theorem distractor_count_counterexample :
    numDistractors 7 = 3 ∧ specRoundedDistractors 7 = 4 ∧ (3 : Nat) ≠ 4 := by
  decide

/-- Claim C3 amended: for every filtered correct-token count `n` the
builder requests `clamp(floor(0.5 * n), min = 3, max = 8)` distractors,
that is `min(max(3, n / 2), 8)` in integer arithmetic (the round-based
formula of the claim agrees only up to `n = 6` and at even counts); in
particular `n = 4` yields `3`, `n = 10` yields `5`, `n = 20` yields `8`,
and the number of distractors actually selected is this count capped by
the size of the eligible pool. -/
theorem distractor_count_policy :
    (∀ n : Nat, numDistractors n = min (max 3 (n / 2)) 8) ∧
    (∀ n : Nat, 3 ≤ numDistractors n ∧ numDistractors n ≤ 8) ∧
    numDistractors 4 = 3 ∧ numDistractors 10 = 5 ∧ numDistractors 20 = 8 ∧
    (∀ (translation : TranslationData) (distractors : List String)
        (rand : Nat → Nat),
      (selectedDistractors translation distractors rand).length =
        min (numDistractors (correctTokens translation).length)
          (availableDistractors translation distractors).length) := by
  refine ⟨fun n => rfl, fun n => ⟨?_, ?_⟩, rfl, rfl, rfl, ?_⟩
  · unfold numDistractors; omega
  · unfold numDistractors; omega
  · intro translation distractors rand
    unfold selectedDistractors
    rw [List.length_take, shuffle_length]

/-! ### Index decomposition -/

/-- Claim C9: for every sentence index below `manifest.total` and a
positive chunk size, the chunk decomposition used by the GET handler
recovers the original global index:
`chunk_index * chunk_size + index_in_chunk = i`. -/
theorem chunk_decomposition (manifest : UnifiedManifest) (i : Nat)
    (_hi : i < manifest.total) (_hcs : 0 < manifest.chunk_size) :
    chunkIndexOf i manifest.chunk_size * manifest.chunk_size +
      indexInChunkOf i manifest.chunk_size = i := by
  unfold chunkIndexOf indexInChunkOf
  rw [Nat.mul_comm]
  exact Nat.div_add_mod i manifest.chunk_size

/-- Witness for claim C9 at the concrete manifest
`{total := 100, chunks := 10, chunk_size := 10}` and index `57`. -/
theorem chunk_decomposition_witness :
    chunkIndexOf 57 10 * 10 + indexInChunkOf 57 10 = 57 :=
  chunk_decomposition ⟨100, 10, 10, []⟩ 57 (by decide) (by decide)

/-! ### Language-conditional grading -/

/-- The token-sequence comparison of `gradeUnifiedAnswer` — length check
plus positional `every` — succeeds exactly when the two lists are
equal. -/
theorem lengthAndPairwise_iff (u e : List String) :
    (((u.length == e.length) && (u.enum.all (fun p =>
      match e.get? p.1 with
      | some x => p.2 == x
      | none => false))) = true) ↔ u = e := by
  constructor
  · intro h
    rw [Bool.and_eq_true] at h
    rcases h with ⟨hlen, hall⟩
    have hlen' : u.length = e.length := beq_iff_eq.mp hlen
    have hall' := List.all_eq_true.mp hall
    apply List.ext
    intro n
    cases hn : u.get? n with
    | none =>
      have : u.length ≤ n := List.get?_eq_none.mp hn
      exact (List.get?_eq_none.mpr (hlen' ▸ this)).symm
    | some x =>
      have hmem : (n, x) ∈ u.enum := by
        have : u.enum.get? n = some (n, x) := by
          rw [List.get?_enum, hn]; rfl
        exact List.get?_mem this
      have := hall' (n, x) hmem
      cases he : e.get? n with
      | none => rw [he] at this; simp at this
      | some y =>
        rw [he] at this
        simp only at this
        exact he ▸ congrArg some (beq_iff_eq.mp this)
  · intro h
    subst h
    rw [Bool.and_eq_true]
    refine ⟨beq_self_eq_true u.length, List.all_eq_true.mpr ?_⟩
    intro p hp
    rcases List.mem_iff_get?.mp hp with ⟨m, hm⟩
    rw [List.get?_enum] at hm
    cases hu : u.get? m with
    | none => rw [hu] at hm; cases hm
    | some x =>
      rw [hu] at hm
      cases hm
      simp only [hu]
      exact beq_self_eq_true x

/-- Claim C1: grading is language-conditional.  For `ko` and `tr` the
verdict is `true` iff the normalized submitted-token sequence and the
normalized expected-token sequence have equal length and are pairwise
equal at every position (expressed through `get?`); for `ja` and `zh`
the verdict is `true` iff the normalized concatenation of the submitted
tokens equals the normalized expected full text. -/
theorem grade_language_conditional (langExercise : LanguageExercise)
    (userTokens : List String) (language : Language) :
    ((language = Language.ko ∨ language = Language.tr) →
      ((gradeUnifiedAnswer langExercise userTokens language).correct = true ↔
        ((userTokens.map normalize).length =
            (langExercise.tokens.map normalize).length ∧
          ∀ i : Nat, (userTokens.map normalize).get? i =
            (langExercise.tokens.map normalize).get? i))) ∧
    ((language = Language.ja ∨ language = Language.zh) →
      ((gradeUnifiedAnswer langExercise userTokens language).correct = true ↔
        normalize (String.join userTokens) = normalize langExercise.text)) := by
  have hlist : ∀ u e : List String,
      (u = e) ↔ (u.length = e.length ∧ ∀ i : Nat, u.get? i = e.get? i) := by
    intro u e
    constructor
    · intro h; subst h; exact ⟨rfl, fun i => rfl⟩
    · intro h; exact List.ext h.2
  constructor
  · intro hko
    have hcond : (language == Language.ko || language == Language.tr) = true := by
      rcases hko with h | h <;> subst h <;> rfl
    show (if (language == Language.ko || language == Language.tr) = true
        then _ else _ : GradeResult).correct = true ↔ _
    rw [if_pos hcond]
    exact (lengthAndPairwise_iff _ _).trans (hlist _ _)
  · intro hja
    have hcond : (language == Language.ko || language == Language.tr) = false := by
      rcases hja with h | h <;> subst h <;> rfl
    show (if (language == Language.ko || language == Language.tr) = true
        then _ else _ : GradeResult).correct = true ↔ _
    rw [if_neg (by simp [hcond])]
    exact beq_iff_eq

/-- Witness for claim C1: both branches of the theorem applied at
concrete inputs — a Korean token-sequence comparison that succeeds and a
Japanese concatenation comparison that succeeds even though the
submitted tiles lack the final punctuation token of the expected
text. -/
theorem grade_language_conditional_witness :
    ((gradeUnifiedAnswer ⟨"제 이름은 지훈입니다.", ["제", "이름은", "지훈입니다"], [], 3⟩
        ["제", "이름은", "지훈입니다"] Language.ko).correct = true) ∧
    ((gradeUnifiedAnswer ⟨"私は学生です。", ["私", "は", "学生", "です"], [], 4⟩
        ["私", "は", "学生", "です"] Language.ja).correct = true) := by
  constructor
  · exact ((grade_language_conditional _ _ Language.ko).1
      (Or.inl rfl)).mpr ⟨rfl, fun i => rfl⟩
  · exact ((grade_language_conditional _ _ Language.ja).2
      (Or.inl rfl)).mpr (by decide)

/-! ### The token-validity filter -/

/-- `trim` yields the empty string exactly on all-whitespace input. -/
theorem jsTrim_data_nil_iff (cs : List Char) :
    (jsTrim ⟨cs⟩).data = [] ↔ ∀ c ∈ cs, isJsWhitespace c = true := by
  unfold jsTrim
  simp only [List.reverse_eq_nil_iff, List.dropWhile_eq_nil_iff,
    List.mem_reverse]
  constructor
  · intro h c hc
    have hsplit := List.takeWhile_append_dropWhile
      (p := isJsWhitespace) (l := cs)
    rw [← hsplit] at hc
    rcases List.mem_append.mp hc with htake | hdrop
    · exact List.mem_takeWhile_imp htake
    · exact h c hdrop
  · intro h c hc
    exact h c ((List.dropWhile_sublist isJsWhitespace).subset hc)

/-- Claim C4: a token is rejected by `isValidToken` iff it is empty or
entirely whitespace, or every character is in the fixed punctuation set
`PUNCTUATION_CHARS`, or its first or last character is a straight or
curly quotation mark; and the builder applies this same predicate to the
sentence's correct tokens and to every candidate distractor. -/
theorem token_validity_filter :
    (∀ token : String, isValidToken token = false ↔
      (token.data = [] ∨
       (∀ c ∈ token.data, isJsWhitespace c = true) ∨
       (∀ c ∈ token.data, c ∈ PUNCTUATION_CHARS) ∨
       (∃ c, token.data.head? = some c ∧ c ∈ quoteChars) ∨
       (∃ c, token.data.getLast? = some c ∧ c ∈ quoteChars))) ∧
    (∀ (translation : TranslationData) (distractors : List String)
        (rand1 rand2 : Nat → Nat),
      (buildExerciseForLanguage translation distractors rand1 rand2).tokens =
        translation.tokens.filter isValidToken ∧
      ∀ x ∈ selectedDistractors translation distractors rand1,
        isValidToken x = true) := by
  constructor
  · intro token
    unfold isValidToken
    by_cases h1 : (token.data.isEmpty || (jsTrim token).data.isEmpty) = true
    · simp only [h1, if_true]
      constructor
      · intro _
        rw [Bool.or_eq_true] at h1
        rcases h1 with he | ht
        · exact Or.inl (List.isEmpty_iff.mp he)
        · refine Or.inr (Or.inl ?_)
          exact (jsTrim_data_nil_iff token.data).mp (List.isEmpty_iff.mp ht)
      · intro _; trivial
    · rw [if_neg h1]
      have hne : token.data ≠ [] := by
        intro hnil
        exact h1 (by simp [hnil, List.isEmpty_iff])
      have hnw : ¬ ∀ c ∈ token.data, isJsWhitespace c = true := by
        intro hall
        exact h1 (by
          rw [Bool.or_eq_true]
          exact Or.inr (List.isEmpty_iff.mpr
            ((jsTrim_data_nil_iff token.data).mpr hall)))
      by_cases h2 : (token.data.all (fun c => PUNCTUATION_CHARS.contains c)) = true
      · simp only [h2, if_true]
        constructor
        · intro _
          refine Or.inr (Or.inr (Or.inl ?_))
          intro c hc
          exact List.elem_iff.mp (List.all_eq_true.mp h2 c hc)
        · intro _; trivial
      · rw [if_neg h2]
        have hnp : ¬ ∀ c ∈ token.data, c ∈ PUNCTUATION_CHARS := by
          intro hall
          exact h2 (List.all_eq_true.mpr
            (fun c hc => List.elem_iff.mpr (hall c hc)))
        by_cases h3 : ((match token.data.head? with
            | some c => quoteChars.contains c
            | none => false) ||
           (match token.data.getLast? with
            | some c => quoteChars.contains c
            | none => false)) = true
        · simp only [h3, if_true]
          constructor
          · intro _
            rw [Bool.or_eq_true] at h3
            rcases h3 with hh | hl
            · refine Or.inr (Or.inr (Or.inr (Or.inl ?_)))
              cases hhd : token.data.head? with
              | none => rw [hhd] at hh; cases hh
              | some c =>
                rw [hhd] at hh
                exact ⟨c, rfl, List.elem_iff.mp hh⟩
            · refine Or.inr (Or.inr (Or.inr (Or.inr ?_)))
              cases hlst : token.data.getLast? with
              | none => rw [hlst] at hl; cases hl
              | some c =>
                rw [hlst] at hl
                exact ⟨c, rfl, List.elem_iff.mp hl⟩
          · intro _; trivial
        · rw [if_neg h3]
          constructor
          · intro habs; cases habs
          · intro hdisj
            exfalso
            rcases hdisj with hd | hd | hd | hd | hd
            · exact hne hd
            · exact hnw hd
            · exact hnp hd
            · rcases hd with ⟨c, hc, hq⟩
              exact h3 (by
                rw [Bool.or_eq_true]
                exact Or.inl (by rw [hc]; exact List.elem_iff.mpr hq))
            · rcases hd with ⟨c, hc, hq⟩
              exact h3 (by
                rw [Bool.or_eq_true]
                exact Or.inr (by rw [hc]; exact List.elem_iff.mpr hq))
  · intro translation distractors rand1 rand2
    refine ⟨rfl, ?_⟩
    intro x hx
    have hmem : x ∈ availableDistractors translation distractors :=
      mem_shuffle.mp (List.mem_of_mem_take hx)
    have hcond := List.of_mem_filter hmem
    rw [Bool.and_eq_true] at hcond
    exact hcond.2

/-- Witness for claim C4 at concrete inputs: the all-punctuation token
`"。"`, the quote-prefixed token, and a build whose only invalid
correct token is dropped while all selected distractors pass the
filter. -/
theorem token_validity_filter_witness :
    (isValidToken "。" = false ↔
      (("。" : String).data = [] ∨
       (∀ c ∈ ("。" : String).data, isJsWhitespace c = true) ∨
       (∀ c ∈ ("。" : String).data, c ∈ PUNCTUATION_CHARS) ∨
       (∃ c, ("。" : String).data.head? = some c ∧ c ∈ quoteChars) ∨
       (∃ c, ("。" : String).data.getLast? = some c ∧ c ∈ quoteChars))) ∧
    (buildExerciseForLanguage ⟨"犬です。", ["犬", "です", "。"]⟩
        ["猫", "魚"] (fun _ => 0) (fun _ => 0)).tokens =
      (["犬", "です", "。"].filter isValidToken) ∧
    isValidToken "猫" = true := by
  refine ⟨(token_validity_filter).1 "。",
    ((token_validity_filter).2 ⟨"犬です。", ["犬", "です", "。"]⟩
      ["猫", "魚"] (fun _ => 0) (fun _ => 0)).1,
    ((token_validity_filter).2 ⟨"犬です。", ["犬", "です", "。"]⟩
      ["猫", "魚"] (fun _ => 0) (fun _ => 0)).2 "猫" (by decide)⟩

/-! ### Distractor/correct-token disjointness -/

/-- Claim C6: for every translation, distractor pool and outcome of the
random shuffles, every selected distractor is absent from the exercise's
filtered correct-token list (which is exactly the `tokens` field of the
built exercise). -/
theorem distractors_disjoint_from_correct
    (translation : TranslationData) (distractors : List String)
    (rand1 rand2 : Nat → Nat) (x : String)
    (hx : x ∈ selectedDistractors translation distractors rand1) :
    x ∉ (buildExerciseForLanguage translation distractors rand1 rand2).tokens := by
  have hmem : x ∈ availableDistractors translation distractors :=
    mem_shuffle.mp (List.mem_of_mem_take hx)
  have hcond := List.of_mem_filter hmem
  rw [Bool.and_eq_true] at hcond
  have hnc := hcond.1
  show x ∉ correctTokens translation
  intro habs
  rw [Bool.not_eq_true'] at hnc
  have hcontains : (correctTokens translation).contains x = true :=
    List.elem_iff.mpr habs
  rw [hcontains] at hnc
  cases hnc

/-- Witness for claim C6: in a concrete build where the pool overlaps the
correct tokens, the selected distractor `"猫"` is not among the correct
tokens. -/
theorem distractors_disjoint_from_correct_witness :
    "猫" ∈ selectedDistractors ⟨"犬です。", ["犬", "です"]⟩
      ["犬", "猫", "魚", "鳥"] (fun _ => 0) ∧
    "猫" ∉ (buildExerciseForLanguage ⟨"犬です。", ["犬", "です"]⟩
      ["犬", "猫", "魚", "鳥"] (fun _ => 0) (fun _ => 0)).tokens := by
  refine ⟨by decide, ?_⟩
  exact distractors_disjoint_from_correct ⟨"犬です。", ["犬", "です"]⟩
    ["犬", "猫", "魚", "鳥"] (fun _ => 0) (fun _ => 0) "猫" (by decide)

/-! ### The multi-dialogue suitability filter -/

/-- Correctness of the whitespace-run tail state: it accepts exactly the
lists that consist of (possibly zero) further whitespace characters
followed by a closing double quote. -/
theorem mdWs_iff : ∀ cs : List Char,
    mdWs cs = true ↔
      ∃ ws post, cs = ws ++ '"' :: post ∧
        ∀ c ∈ ws, isJsWhitespace c = true := by
  intro cs
  induction cs with
  | nil =>
    simp only [mdWs]
    constructor
    · intro h; cases h
    · rintro ⟨ws, post, h, -⟩; cases ws <;> cases h
  | cons a rest ih =>
    by_cases ha : a = '"'
    · subst ha
      simp only [mdWs, if_pos rfl]
      constructor
      · intro _; exact ⟨[], rest, rfl, by intro c hc; cases hc⟩
      · intro _; rfl
    · simp only [mdWs, if_neg ha, Bool.and_eq_true]
      constructor
      · rintro ⟨hwa, htail⟩
        rcases ih.mp htail with ⟨ws, post, hcs, hws⟩
        refine ⟨a :: ws, post, by rw [hcs]; rfl, ?_⟩
        intro c hc
        rcases List.mem_cons.mp hc with hc | hc
        · subst hc; exact hwa
        · exact hws c hc
      · rintro ⟨ws, post, hcs, hws⟩
        cases ws with
        | nil =>
          simp only [List.nil_append, List.cons.injEq] at hcs
          exact absurd hcs.1 ha
        | cons w ws' =>
          simp only [List.cons_append, List.cons.injEq] at hcs
          rcases hcs with ⟨haw, hrest⟩
          subst haw
          refine ⟨hws a (List.mem_cons_self a ws'), ih.mpr ?_⟩
          exact ⟨ws', post, hrest, fun c hc => hws c (List.mem_cons_of_mem a hc)⟩

/-- Correctness of the after-quote state: it accepts exactly the lists
beginning with a non-empty whitespace run followed by a double quote. -/
theorem mdAfterQuote_iff : ∀ cs : List Char,
    mdAfterQuote cs = true ↔
      ∃ ws post, cs = ws ++ '"' :: post ∧ ws ≠ [] ∧
        ∀ c ∈ ws, isJsWhitespace c = true := by
  intro cs
  cases cs with
  | nil =>
    simp only [mdAfterQuote]
    constructor
    · intro h; cases h
    · rintro ⟨ws, post, h, -, -⟩; cases ws <;> cases h
  | cons a rest =>
    simp only [mdAfterQuote, Bool.and_eq_true]
    constructor
    · rintro ⟨hwa, htail⟩
      rcases (mdWs_iff rest).mp htail with ⟨ws, post, hcs, hws⟩
      refine ⟨a :: ws, post, by rw [hcs]; rfl, by simp, ?_⟩
      intro c hc
      rcases List.mem_cons.mp hc with hc | hc
      · subst hc; exact hwa
      · exact hws c hc
    · rintro ⟨ws, post, hcs, hne, hws⟩
      cases ws with
      | nil => exact absurd rfl hne
      | cons w ws' =>
        simp only [List.cons_append, List.cons.injEq] at hcs
        rcases hcs with ⟨haw, hrest⟩
        subst haw
        refine ⟨hws a (List.mem_cons_self a ws'), (mdWs_iff rest).mpr ?_⟩
        exact ⟨ws', post, hrest, fun c hc => hws c (List.mem_cons_of_mem a hc)⟩

/-- Correctness of the unanchored scanner: it accepts exactly the lists
containing a double quote, a non-empty whitespace run, and another double
quote, in that order. -/
theorem mdScan_iff : ∀ cs : List Char,
    mdScan cs = true ↔
      ∃ pre mid post, cs = pre ++ '"' :: (mid ++ '"' :: post) ∧ mid ≠ [] ∧
        ∀ c ∈ mid, isJsWhitespace c = true := by
  intro cs
  induction cs with
  | nil =>
    simp only [mdScan]
    constructor
    · intro h; cases h
    · rintro ⟨pre, mid, post, h, -, -⟩; cases pre <;> cases h
  | cons a rest ih =>
    by_cases ha : a = '"'
    · subst ha
      rw [show mdScan ('"' :: rest) = (mdAfterQuote rest || mdScan rest) from
        by simp [mdScan]]
      rw [Bool.or_eq_true]
      constructor
      · rintro (hq | hs)
        · rcases (mdAfterQuote_iff rest).mp hq with ⟨mid, post, hcs, hne, hws⟩
          exact ⟨[], mid, post, by rw [hcs]; rfl, hne, hws⟩
        · rcases ih.mp hs with ⟨pre, mid, post, hcs, hne, hws⟩
          exact ⟨'"' :: pre, mid, post, by rw [hcs]; rfl, hne, hws⟩
      · rintro ⟨pre, mid, post, hcs, hne, hws⟩
        cases pre with
        | nil =>
          simp only [List.nil_append, List.cons.injEq] at hcs
          exact Or.inl ((mdAfterQuote_iff rest).mpr ⟨mid, post, hcs.2, hne, hws⟩)
        | cons p pre' =>
          simp only [List.cons_append, List.cons.injEq] at hcs
          exact Or.inr (ih.mpr ⟨pre', mid, post, hcs.2, hne, hws⟩)
    · simp only [mdScan, if_neg ha]
      constructor
      · intro hs
        rcases ih.mp hs with ⟨pre, mid, post, hcs, hne, hws⟩
        exact ⟨a :: pre, mid, post, by rw [hcs]; rfl, hne, hws⟩
      · rintro ⟨pre, mid, post, hcs, hne, hws⟩
        cases pre with
        | nil =>
          simp only [List.nil_append, List.cons.injEq] at hcs
          exact absurd hcs.1 ha
        | cons p pre' =>
          simp only [List.cons_append, List.cons.injEq] at hcs
          exact ih.mpr ⟨pre', mid, post, hcs.2, hne, hws⟩

/-- Claim C8: the suitability filter rejects a sentence iff its English
source contains a double quote, a non-empty run of whitespace, then a
double quote; the spec's examples behave as stated; and only the English
text is inspected — two sentences with the same English source are
judged identically whatever their translations are. -/
theorem multi_dialogue_filter :
    (∀ s : UnifiedSentence, isSuitableSentence s = false ↔
      ∃ pre mid post, s.en.data = pre ++ '"' :: (mid ++ '"' :: post) ∧
        mid ≠ [] ∧ ∀ c ∈ mid, isJsWhitespace c = true) ∧
    (isSuitableSentence ⟨0, "\"Hello.\" \"Hi there.\"", fun _ => none⟩ = false) ∧
    (isSuitableSentence ⟨0, "\"Hello there.\"", fun _ => none⟩ = true) ∧
    (∀ s t : UnifiedSentence, s.en = t.en →
      isSuitableSentence s = isSuitableSentence t) := by
  refine ⟨?_, by decide, by decide, ?_⟩
  · intro s
    unfold isSuitableSentence multiDialogueTest
    by_cases h : mdScan s.en.data = true
    · rw [if_pos h]
      exact iff_of_true rfl ((mdScan_iff s.en.data).mp h)
    · rw [if_neg h]
      constructor
      · intro habs; cases habs
      · intro hex
        exact absurd ((mdScan_iff s.en.data).mpr hex) h
  · intro s t hst
    unfold isSuitableSentence multiDialogueTest
    rw [hst]

/-- Witness for claim C8: the characterization applied to the rejected
example sentence, and the English-only conjunct applied to two sentences
sharing an English source but with different translations. -/
theorem multi_dialogue_filter_witness :
    (isSuitableSentence ⟨0, "\"Hello.\" \"Hi there.\"", fun _ => none⟩ = false ↔
      ∃ pre mid post,
        ("\"Hello.\" \"Hi there.\"" : String).data =
          pre ++ '"' :: (mid ++ '"' :: post) ∧ mid ≠ [] ∧
        ∀ c ∈ mid, isJsWhitespace c = true) ∧
    isSuitableSentence ⟨1, "Hi.", fun _ => some ⟨"やあ。", ["やあ"]⟩⟩ =
      isSuitableSentence ⟨2, "Hi.", fun _ => none⟩ := by
  exact ⟨multi_dialogue_filter.1 ⟨0, "\"Hello.\" \"Hi there.\"", fun _ => none⟩,
    multi_dialogue_filter.2.2.2 ⟨1, "Hi.", fun _ => some ⟨"やあ。", ["やあ"]⟩⟩
      ⟨2, "Hi.", fun _ => none⟩ rfl⟩

/-! ### Per-language omission in multi-language mode -/

/-- A produced per-language entry carries its own language as key. -/
theorem langEntry_key (s : UnifiedSentence) (aD : Language → List String)
    (rng : Language → (Nat → Nat) × (Nat → Nat)) (lang : Language)
    (p : Language × LanguageExercise) (h : langEntry s aD rng lang = some p) :
    p.1 = lang := by
  unfold langEntry at h
  cases ht : s.translations lang with
  | none => rw [ht] at h; cases h
  | some t =>
    rw [ht] at h
    dsimp only at h
    by_cases htl : t.tokens.length > 0
    · rw [if_pos htl] at h
      cases h
      rfl
    · rw [if_neg htl] at h
      cases h

/-- When a language produces no entry, it is absent from the whole
per-language result list. -/
theorem lookup_filterMap_none (s : UnifiedSentence)
    (aD : Language → List String)
    (rng : Language → (Nat → Nat) × (Nat → Nat)) (lang : Language)
    (h : langEntry s aD rng lang = none) :
    ∀ langs : List Language,
      (langs.filterMap (langEntry s aD rng)).lookup lang = none := by
  intro langs
  induction langs with
  | nil => rfl
  | cons a rest ih =>
    rw [List.filterMap_cons]
    cases he : langEntry s aD rng a with
    | none => exact ih
    | some p =>
      have hk : p.1 = a := langEntry_key s aD rng a p he
      have hne : lang ≠ a := by
        intro heq
        subst heq
        rw [h] at he
        cases he
      cases p with
      | mk k v =>
        simp only at hk
        subst hk
        simp only [List.lookup, beq_eq_false_iff_ne.mpr hne]
        exact ih

/-- Looking up any of the processed languages in the per-language loop's
result yields exactly what that language's own iteration produced. -/
theorem lookup_filterMap_entry (s : UnifiedSentence)
    (aD : Language → List String)
    (rng : Language → (Nat → Nat) × (Nat → Nat)) :
    ∀ (langs : List Language) (lang : Language), lang ∈ langs →
      (langs.filterMap (langEntry s aD rng)).lookup lang =
        (langEntry s aD rng lang).map Prod.snd := by
  intro langs
  induction langs with
  | nil => intro lang h; cases h
  | cons a rest ih =>
    intro lang hmem
    rw [List.filterMap_cons]
    by_cases hla : a = lang
    · subst hla
      cases he : langEntry s aD rng a with
      | none =>
        rw [Option.map_none']
        exact lookup_filterMap_none s aD rng a he rest
      | some p =>
        have hk : p.1 = a := langEntry_key s aD rng a p he
        cases p with
        | mk k v =>
          simp only at hk
          subst hk
          simp [List.lookup]
    · have hmem' : lang ∈ rest := by
        rcases List.mem_cons.mp hmem with h | h
        · exact absurd h.symm hla
        · exact h
      cases he : langEntry s aD rng a with
      | none => exact ih lang hmem'
      | some p =>
        have hk : p.1 = a := langEntry_key s aD rng a p he
        have hne : lang ≠ a := fun heq => hla heq.symm
        cases p with
        | mk k v =>
          simp only at hk
          subst hk
          simp only [List.lookup, beq_eq_false_iff_ne.mpr hne]
          exact ih lang hmem'

/-- A sentence whose only Japanese translation is the lone punctuation
token `"。"` — every raw token is invalid, yet the raw token list is
non-empty. -/
def punctOnlySentence : UnifiedSentence :=
  ⟨7, "A dog.", fun lang =>
    if lang = Language.ja then some ⟨"。", ["。"]⟩ else none⟩

/-- A distractor pool of four valid tokens for every language. -/
def demoPools : Language → List String :=
  fun _ => ["犬", "猫", "魚", "鳥"]

/-- Fixed random draws (always zero) for every language. -/
def demoRng : Language → (Nat → Nat) × (Nat → Nat) :=
  fun _ => (fun _ => 0, fun _ => 0)

/-- Claim C5 counterexample: the per-language loop tests the raw token
list, not the filtered one.  For `punctOnlySentence` the Japanese
translation has one (invalid) raw token, so the language is NOT omitted:
the built exercise has an empty correct-token list and three
distractor-only tiles. -/
theorem empty_token_language_not_omitted :
    ((buildAllExercises punctOnlySentence demoPools demoRng).lookup
        Language.ja).map
      (fun e => (e.tokens, e.tiles.length, e.num_correct_tiles)) =
      some ([], 3, 0) := by
  rfl

/-- Claim C5 amended: a language is omitted from the multi-language
result iff it has no translation or its translation's RAW token list is
empty; a translation whose raw tokens are non-empty but all invalid is
still built, producing an exercise with empty correct tokens and
distractor-only tiles (the omission itself is never an error — the other
languages are unaffected). -/
theorem language_omission (s : UnifiedSentence)
    (aD : Language → List String)
    (rng : Language → (Nat → Nat) × (Nat → Nat)) (lang : Language) :
    (buildAllExercises s aD rng).lookup lang = none ↔
      (s.translations lang = none ∨
       ∃ t, s.translations lang = some t ∧ t.tokens = []) := by
  have hmem : lang ∈ [Language.ja, Language.zh, Language.ko, Language.tr] := by
    cases lang <;> simp
  unfold buildAllExercises
  rw [lookup_filterMap_entry s aD rng _ lang hmem, Option.map_eq_none']
  unfold langEntry
  cases ht : s.translations lang with
  | none =>
    simp
  | some t =>
    dsimp only
    by_cases htl : t.tokens.length > 0
    · rw [if_pos htl]
      constructor
      · intro habs; cases habs
      · rintro (h | ⟨t', ht', htok⟩)
        · cases h
        · cases ht'
          rw [htok] at htl
          cases htl
    · rw [if_neg htl]
      have htok : t.tokens = [] := by
        cases htt : t.tokens with
        | nil => rfl
        | cons x xs => rw [htt] at htl; exact absurd (by simp) htl
      exact iff_of_true rfl (Or.inr ⟨t, rfl, htok⟩)

/-! ### The bounded retry loop -/

/-- The failure condition of one attempt of the selection loop: the
candidate at the drawn position is missing, or it exists and is judged
unsuitable. -/
def attemptFails (total chunkSize : Nat)
    (chunks : Nat → List UnifiedSentence) (pick : Nat → Nat)
    (attempt : Nat) : Prop :=
  match (chunks (chunkIndexOf (pick attempt % total) chunkSize)).get?
      (indexInChunkOf (pick attempt % total) chunkSize) with
  | some candidate => isSuitableSentence candidate = false
  | none => True

/-- If every attempt within the remaining fuel fails, the selection loop
returns nothing. -/
theorem selectSentenceAux_none (total chunkSize : Nat)
    (chunks : Nat → List UnifiedSentence) (pick : Nat → Nat) :
    ∀ (fuel attempt : Nat),
      (∀ a, attempt ≤ a → a < attempt + fuel →
        attemptFails total chunkSize chunks pick a) →
      selectSentenceAux total chunkSize chunks pick attempt fuel = none := by
  intro fuel
  induction fuel with
  | zero => intro attempt _; rfl
  | succ f ih =>
    intro attempt h
    have hfail := h attempt (Nat.le_refl _) (by omega)
    unfold attemptFails at hfail
    unfold selectSentenceAux
    cases hc : (chunks (chunkIndexOf (pick attempt % total) chunkSize)).get?
        (indexInChunkOf (pick attempt % total) chunkSize) with
    | none =>
      simp only [hc]
      exact ih (attempt + 1) (fun a h1 h2 => h a (by omega) (by omega))
    | some cand =>
      rw [hc] at hfail
      simp only [hc, hfail, if_false]
      exact ih (attempt + 1) (fun a h1 h2 => h a (by omega) (by omega))

/-- Whatever the loop returns was judged suitable. -/
theorem selectSentenceAux_suitable (total chunkSize : Nat)
    (chunks : Nat → List UnifiedSentence) (pick : Nat → Nat) :
    ∀ (fuel attempt : Nat) (s : UnifiedSentence),
      selectSentenceAux total chunkSize chunks pick attempt fuel = some s →
      isSuitableSentence s = true := by
  intro fuel
  induction fuel with
  | zero => intro attempt s h; cases h
  | succ f ih =>
    intro attempt s h
    unfold selectSentenceAux at h
    revert h
    cases hc : (chunks (chunkIndexOf (pick attempt % total) chunkSize)).get?
        (indexInChunkOf (pick attempt % total) chunkSize) with
    | none =>
      simp only [hc]
      exact ih (attempt + 1) s
    | some cand =>
      simp only [hc]
      by_cases hs : isSuitableSentence cand = true
      · rw [if_pos hs]
        intro h
        cases h
        exact hs
      · rw [if_neg hs]
        exact ih (attempt + 1) s

/-- Claim C7: the sentence-selection loop makes at most `MAX_ATTEMPTS`
(= 10) attempts; if every attempt within that bound draws a missing or
unsuitable candidate, the handler returns the distinct 404 "no suitable
sentence" failure and builds nothing; and every successful result is
built from a sentence that passed the suitability filter — never from an
unsuitable one. -/
theorem bounded_retry (manifest : UnifiedManifest)
    (chunks : Nat → List UnifiedSentence)
    (allDistractors : Language → List String) (pick : Nat → Nat)
    (rng : Language → (Nat → Nat) × (Nat → Nat)) :
    ((∀ a, a < MAX_ATTEMPTS →
        attemptFails manifest.total manifest.chunk_size chunks pick a) →
      getUnifiedExercise manifest chunks allDistractors pick rng =
        GetResult.err "Could not find suitable sentence" 404) ∧
    (∀ (eid : Nat) (en : String) (exs : List (Language × LanguageExercise)),
      getUnifiedExercise manifest chunks allDistractors pick rng =
        GetResult.ok eid en exs →
      ∃ s : UnifiedSentence,
        selectSentence manifest.total manifest.chunk_size chunks pick =
          some s ∧
        isSuitableSentence s = true ∧ eid = s.id ∧ en = s.en ∧
        exs = buildAllExercises s allDistractors rng) := by
  constructor
  · intro h
    unfold getUnifiedExercise selectSentence
    rw [selectSentenceAux_none manifest.total manifest.chunk_size chunks pick
      MAX_ATTEMPTS 0 (fun a h1 h2 => h a (by omega))]
  · intro eid en exs h
    unfold getUnifiedExercise at h
    cases hsel : selectSentence manifest.total manifest.chunk_size chunks pick with
    | none => rw [hsel] at h; cases h
    | some s =>
      rw [hsel] at h
      cases h
      exact ⟨s, rfl,
        selectSentenceAux_suitable manifest.total manifest.chunk_size chunks
          pick MAX_ATTEMPTS 0 s hsel, rfl, rfl, rfl⟩

/-- A sentence whose English source is a multi-dialogue exchange — every
draw of the retry loop lands on it and fails the suitability filter. -/
def unsuitableOnlySentence : UnifiedSentence :=
  ⟨0, "\"Hello.\" \"Hi there.\"", fun _ => none⟩

/-- Witness for claim C7: with a one-sentence corpus whose sole sentence
is a multi-dialogue exchange, the handler returns the 404 "no suitable
sentence" failure. -/
theorem bounded_retry_witness :
    getUnifiedExercise ⟨1, 1, 1, []⟩ (fun _ => [unsuitableOnlySentence])
      (fun _ => []) (fun _ => 0) demoRng =
      GetResult.err "Could not find suitable sentence" 404 := by
  exact (bounded_retry ⟨1, 1, 1, []⟩ (fun _ => [unsuitableOnlySentence])
      (fun _ => []) (fun _ => 0) demoRng).1
    (fun a _ =>
      (by decide : isSuitableSentence unsuitableOnlySentence = false))

end Duojp
